import Mathlib

/-!
Shallow embedding of `app-tracker.py`, a single-file CLI inventory tracker
for software applications.  Python strings are modelled as Lean `String`
(lists of characters), dictionaries built by the script as records or
association lists, and the JSON document written by `save_apps` as an
explicit `JValue` tree.  Interactive prompts are modelled by passing the
entered text as explicit arguments; `datetime.now()` is an explicit `now`
parameter.  Each definition mirrors one Python function of the script.
-/

/-- Python `str.lower()` on the ASCII fragment: lowercase every character. -/
def pyLower (s : String) : String := ⟨s.data.map Char.toLower⟩

/-- Python `str.replace(a, b)` for single-character patterns. -/
def pyReplaceChar (s : String) (a b : Char) : String :=
  ⟨s.data.map (fun c => if c = a then b else c)⟩

/-- Python `str.strip()`: drop whitespace from both ends. -/
def pyStrip (s : String) : String :=
  ⟨((s.data.dropWhile Char.isWhitespace).reverse.dropWhile Char.isWhitespace).reverse⟩

/-- `get_input(prompt, default)` from the script, as a function of the text the
user entered and the default: the entered text is stripped; with a non-empty
(truthy) default a blank entry falls back to the default, otherwise the
stripped entry is returned as-is (`required=False` path). -/
def get_input (entered default : String) : String :=
  if default ≠ "" then
    let value := pyStrip entered
    if value ≠ "" then value else default
  else
    pyStrip entered

/-- Decimal digit characters of `n`, most significant first, with explicit
structural fuel (`fuel > n` suffices). Mirrors Python's decimal rendering of
an `int` inside an f-string. -/
def decDigitsCore : Nat → Nat → List Char
  | 0, _ => []
  | fuel+1, n =>
    if n < 10 then [Nat.digitChar n]
    else decDigitsCore fuel (n / 10) ++ [Nat.digitChar (n % 10)]

/-- Python `str(n)` for a natural number `n`. -/
def natToStr (n : Nat) : String := ⟨decDigitsCore (n+1) n⟩

/-- The base identifier computed by `generate_id`: lowercase, spaces and
underscores to hyphens, every other non-alphanumeric non-hyphen character
stripped. -/
def generate_base (name : String) : String :=
  let base := pyReplaceChar (pyReplaceChar (pyLower name) ' ' '-') '_' '-'
  ⟨base.data.filter (fun c => c.isAlphanum || c = '-')⟩

/-- The candidate identifier `f"{base_id}-{counter}"`. -/
def genCandidate (base : String) (counter : Nat) : String :=
  base ++ "-" ++ natToStr counter

/-- The `while f"{base_id}-{counter}" in existing_ids: counter += 1` loop of
`generate_id`, with structural fuel: returns the first counter `≥ c` whose
candidate is unused (fuel permitting). -/
def findSuffix (base : String) (existing : List String) : Nat → Nat → Nat
  | 0, c => c
  | fuel+1, c =>
    if genCandidate base c ∈ existing then findSuffix base existing fuel (c+1)
    else c

/-- `generate_id(name, existing_ids)` from the script.  The Python loop is
unbounded; `existing_ids.length + 1` steps are enough to reach the first
unused candidate (proved below), so the fuelled loop computes the same
value. -/
def generate_id (name : String) (existing_ids : List String) : String :=
  let base := generate_base name
  if base ∈ existing_ids then
    genCandidate base (findSuffix base existing_ids (existing_ids.length + 1) 1)
  else
    base

/-! ### Basic lemmas about the decimal rendering -/

lemma decDigitsCore_stable (f : Nat) : ∀ g n, n < f → n < g →
    decDigitsCore f n = decDigitsCore g n := by
  induction f with
  | zero => intro g n h _; omega
  | succ f ih =>
    intro g n hf hg
    cases g with
    | zero => omega
    | succ g =>
      by_cases h : n < 10
      · simp [decDigitsCore, h]
      · have hdiv : n / 10 < n := Nat.div_lt_self (by omega) (by omega)
        simp only [decDigitsCore, h, if_false]
        have := ih g (n / 10) (by omega) (by omega)
        rw [this]

lemma decDigitsCore_ne_nil (n : Nat) : decDigitsCore (n+1) n ≠ [] := by
  by_cases h : n < 10 <;> simp [decDigitsCore, h]

lemma decDigits_spec (n : Nat) :
    decDigitsCore (n+1) n =
      if n < 10 then [Nat.digitChar n]
      else decDigitsCore (n/10 + 1) (n/10) ++ [Nat.digitChar (n % 10)] := by
  have step : decDigitsCore (n+1) n =
      if n < 10 then [Nat.digitChar n]
      else decDigitsCore n (n/10) ++ [Nat.digitChar (n % 10)] := rfl
  rw [step]
  by_cases h : n < 10
  · rw [if_pos h, if_pos h]
  · have hdiv : n / 10 < n := Nat.div_lt_self (by omega) (by omega)
    rw [if_neg h, if_neg h]
    rw [decDigitsCore_stable n (n/10 + 1) (n/10) (by omega) (by omega)]

lemma digitChar_inj_lt (a b : Nat) (ha : a < 10) (hb : b < 10)
    (h : Nat.digitChar a = Nat.digitChar b) : a = b := by
  have key : ∀ x : Fin 10, ∀ y : Fin 10,
      Nat.digitChar x.val = Nat.digitChar y.val → x = y := by decide
  have := key ⟨a, ha⟩ ⟨b, hb⟩ h
  exact congrArg Fin.val this

lemma decDigits_inj : ∀ m n : Nat,
    decDigitsCore (m+1) m = decDigitsCore (n+1) n → m = n := by
  intro m
  induction m using Nat.strong_induction_on with
  | _ m ih =>
    intro n h
    rw [decDigits_spec m, decDigits_spec n] at h
    by_cases hm : m < 10 <;> by_cases hn : n < 10
    · simp only [hm, hn, if_true] at h
      exact digitChar_inj_lt m n hm hn (List.singleton_injective h)
    · simp only [hm, hn, if_true, if_false] at h
      obtain ⟨c, cs, hcc⟩ := List.exists_cons_of_ne_nil (decDigitsCore_ne_nil (n/10))
      have hlen := congrArg List.length h
      rw [hcc] at hlen
      simp only [List.length_singleton, List.length_append, List.length_cons] at hlen
      omega
    · simp only [hm, hn, if_true, if_false] at h
      obtain ⟨c, cs, hcc⟩ := List.exists_cons_of_ne_nil (decDigitsCore_ne_nil (m/10))
      have hlen := congrArg List.length h
      rw [hcc] at hlen
      simp only [List.length_singleton, List.length_append, List.length_cons] at hlen
      omega
    · simp only [hm, hn, if_false] at h
      have h' := congrArg List.reverse h
      simp only [List.reverse_append, List.reverse_cons, List.reverse_nil,
        List.nil_append, List.cons_append, List.cons.injEq] at h'
      obtain ⟨hhead, htail⟩ := h'
      have hmod : m % 10 = n % 10 :=
        digitChar_inj_lt _ _ (Nat.mod_lt _ (by omega)) (Nat.mod_lt _ (by omega)) hhead
      have htail' : decDigitsCore (m/10 + 1) (m/10) = decDigitsCore (n/10 + 1) (n/10) := by
        have := congrArg List.reverse htail
        simpa using this
      have hdivlt : m / 10 < m := Nat.div_lt_self (by omega) (by omega)
      have hdiv := ih (m/10) hdivlt (n/10) htail'
      omega

lemma natToStr_inj : ∀ m n : Nat, natToStr m = natToStr n → m = n := by
  intro m n h
  apply decDigits_inj
  exact congrArg String.data h

/-! ### Freshness of generated identifiers -/

lemma str_append_data (a b : String) : (a ++ b).data = a.data ++ b.data := rfl

lemma genCandidate_inj (base : String) : ∀ j k, genCandidate base j = genCandidate base k → j = k := by
  intro j k h
  apply natToStr_inj
  have h' := congrArg String.data h
  simp only [genCandidate, str_append_data] at h'
  exact String.ext (List.append_cancel_left h')

lemma exists_unused (base : String) (existing : List String) :
    ∃ j, 1 ≤ j ∧ j < existing.length + 2 ∧ genCandidate base j ∉ existing := by
  by_contra hcon
  push_neg at hcon
  have hmem : ∀ i, i < existing.length + 1 → genCandidate base (i+1) ∈ existing := by
    intro i hi
    exact hcon (i+1) (by omega) (by omega)
  set L := (List.range (existing.length + 1)).map (fun i => genCandidate base (i+1)) with hL
  have hnd : L.Nodup := by
    apply List.Nodup.map
    · intro i₁ i₂ hh
      have := genCandidate_inj base (i₁+1) (i₂+1) hh
      omega
    · exact List.nodup_range _
  have hsub : L ⊆ existing := by
    intro x hx
    rw [hL, List.mem_map] at hx
    obtain ⟨i, hi, rfl⟩ := hx
    rw [List.mem_range] at hi
    exact hmem i hi
  have hlen : L.length = existing.length + 1 := by simp [hL]
  have hcard : L.toFinset.card = L.length := List.toFinset_card_of_nodup hnd
  have hsubF : L.toFinset ⊆ existing.toFinset := by
    intro x hx
    rw [List.mem_toFinset] at hx ⊢
    exact hsub hx
  have h3 := Finset.card_le_card hsubF
  have h4 : existing.toFinset.card ≤ existing.length := existing.toFinset_card_le
  omega

lemma findSuffix_ge (base : String) (existing : List String) :
    ∀ fuel c, c ≤ findSuffix base existing fuel c := by
  intro fuel
  induction fuel with
  | zero => intro c; simp [findSuffix]
  | succ fuel ih =>
    intro c
    by_cases h : genCandidate base c ∈ existing
    · simp only [findSuffix, h, if_true]
      have := ih (c+1)
      omega
    · simp [findSuffix, h]

lemma findSuffix_free (base : String) (existing : List String) :
    ∀ fuel c, (∃ j, c ≤ j ∧ j < c + fuel ∧ genCandidate base j ∉ existing) →
      genCandidate base (findSuffix base existing fuel c) ∉ existing := by
  intro fuel
  induction fuel with
  | zero =>
    intro c hj
    obtain ⟨j, h1, h2, _⟩ := hj
    omega
  | succ fuel ih =>
    intro c hj
    by_cases h : genCandidate base c ∈ existing
    · simp only [findSuffix, h, if_true]
      apply ih (c+1)
      obtain ⟨j, h1, h2, h3⟩ := hj
      refine ⟨j, ?_, by omega, h3⟩
      rcases Nat.eq_or_lt_of_le h1 with rfl | hlt
      · exact absurd h h3
      · omega
    · simp only [findSuffix, h, if_false]
      exact not_false

lemma findSuffix_min (base : String) (existing : List String) :
    ∀ fuel c j, c ≤ j → j < findSuffix base existing fuel c →
      genCandidate base j ∈ existing := by
  intro fuel
  induction fuel with
  | zero =>
    intro c j h1 h2
    simp only [findSuffix] at h2
    omega
  | succ fuel ih =>
    intro c j h1 h2
    by_cases h : genCandidate base c ∈ existing
    · simp only [findSuffix, h, if_true] at h2
      rcases Nat.eq_or_lt_of_le h1 with rfl | hlt
      · exact h
      · exact ih (c+1) j hlt h2
    · simp only [findSuffix, h, if_false] at h2
      omega

lemma generate_id_fresh (name : String) (existing : List String) :
    generate_id name existing ∉ existing := by
  unfold generate_id
  by_cases h : generate_base name ∈ existing
  · simp only [h, if_true]
    apply findSuffix_free
    obtain ⟨j, h1, h2, h3⟩ := exists_unused (generate_base name) existing
    exact ⟨j, h1, by omega, h3⟩
  · rw [if_neg h]
    exact h

/-! ### Data model: the App record and its JSON document -/

/-- One tracked application, with exactly the ten fields built by `add_app`.
`urls` is the (insertion-ordered) dictionary of environment URLs. -/
structure App where
  id : String
  name : String
  description : String
  urls : List (String × String)
  repository : String
  tech_stack : String
  status : String
  notes : String
  created_at : String
  updated_at : String
deriving DecidableEq, Repr

/-- The `urls` dictionary as built by `add_app` and `edit_app`: one `if` per
environment slot, in the fixed order of the script, keeping only non-empty
values. -/
def mkUrls (dev staging prod other : String) : List (String × String) :=
  (if dev ≠ "" then [("development", dev)] else []) ++
  (if staging ≠ "" then [("staging", staging)] else []) ++
  (if prod ≠ "" then [("production", prod)] else []) ++
  (if other ≠ "" then [("other", other)] else [])

/-- Python `urls.get(key, '')` on the association-list model of the dict. -/
def urlGet (urls : List (String × String)) (key : String) : String :=
  match urls.find? (fun kv => kv.1 = key) with
  | some kv => kv.2
  | none => ""

/-- The `status_map.get(choice, "development")` lookup of `add_app`. -/
def chooseStatusAdd (choice : String) : String :=
  if choice = "1" then "development"
  else if choice = "2" then "staging"
  else if choice = "3" then "production"
  else if choice = "4" then "archived"
  else "development"

/-- The `status_map.get(choice, app['status'])` lookup of `edit_app`. -/
def chooseStatusEdit (choice current : String) : String :=
  if choice = "1" then "development"
  else if choice = "2" then "staging"
  else if choice = "3" then "production"
  else if choice = "4" then "archived"
  else current

/-- The raw text entered at each prompt of `add`.  `name_in` stands for the
value returned by the required-name prompt (the script re-prompts until the
stripped entry is non-empty, so it is already stripped and non-empty when the
flow continues). -/
structure AddInputs where
  name_in : String
  description_in : String
  url_dev_in : String
  url_staging_in : String
  url_prod_in : String
  url_other_in : String
  repo_in : String
  tech_in : String
  status_choice_in : String
  notes_in : String
deriving Repr

/-- `add_app`: build the new record from the prompt entries, generate its id
against the ids already in the collection, append, and return the grown
collection together with the new record. -/
def add_app (inp : AddInputs) (now : String) (data : List App) : List App × App :=
  let existing_ids := data.map (fun a => a.id)
  let name := inp.name_in
  let app_id := generate_id name existing_ids
  let description := get_input inp.description_in ""
  let url_dev := get_input inp.url_dev_in ""
  let url_staging := get_input inp.url_staging_in ""
  let url_prod := get_input inp.url_prod_in ""
  let url_other := get_input inp.url_other_in ""
  let repo_url := get_input inp.repo_in ""
  let tech_stack := get_input inp.tech_in ""
  let status := chooseStatusAdd (get_input inp.status_choice_in "1")
  let notes := get_input inp.notes_in ""
  let app : App :=
    { id := app_id
      name := name
      description := description
      urls := mkUrls url_dev url_staging url_prod url_other
      repository := repo_url
      tech_stack := tech_stack
      status := status
      notes := notes
      created_at := now
      updated_at := now }
  (data ++ [app], app)

/-- The raw text entered at each prompt of `edit`. -/
structure EditInputs where
  name_in : String
  description_in : String
  url_dev_in : String
  url_staging_in : String
  url_prod_in : String
  url_other_in : String
  repo_in : String
  tech_in : String
  status_choice_in : String
  notes_in : String
deriving Repr

/-- The field updates `edit_app` applies to the found record: every prompt is
pre-filled with the current value, the `urls` dict is rebuilt from the four
slot prompts, the status changes only on a non-blank choice, and
`updated_at` is refreshed.  `id` and `created_at` are never assigned. -/
def edit_app_one (inp : EditInputs) (now : String) (a : App) : App :=
  let name := get_input inp.name_in a.name
  let description := get_input inp.description_in a.description
  let url_dev := get_input inp.url_dev_in (urlGet a.urls "development")
  let url_staging := get_input inp.url_staging_in (urlGet a.urls "staging")
  let url_prod := get_input inp.url_prod_in (urlGet a.urls "production")
  let url_other := get_input inp.url_other_in (urlGet a.urls "other")
  let new_urls := mkUrls url_dev url_staging url_prod url_other
  let repository := get_input inp.repo_in a.repository
  let tech_stack := get_input inp.tech_in a.tech_stack
  let status_choice := get_input inp.status_choice_in ""
  let status := if status_choice ≠ "" then chooseStatusEdit status_choice a.status else a.status
  let notes := get_input inp.notes_in a.notes
  { a with
      name := name
      description := description
      urls := new_urls
      repository := repository
      tech_stack := tech_stack
      status := status
      notes := notes
      updated_at := now }

/-- Apply `f` to the first record whose id matches, as the in-place mutation
of the dict found by `next(...)` does. -/
def replaceFirst (data : List App) (app_id : String) (f : App → App) : List App :=
  match data with
  | [] => []
  | a :: rest =>
    if a.id = app_id then f a :: rest else a :: replaceFirst rest app_id f

/-- `edit_app`: edit the found record and persist; on an unknown id print an
error and return with nothing saved.  The `Bool` records whether the
collection was saved. -/
def edit_app (inp : EditInputs) (now : String) (app_id : String) (data : List App) :
    List App × Bool :=
  if data.any (fun a => a.id = app_id) then
    (replaceFirst data app_id (edit_app_one inp now), true)
  else
    (data, false)

/-- `remove_app`: on an unknown id print an error and return; otherwise ask
for confirmation and delete only when the stripped input lowercases to
`"yes"`.  The `Bool` records whether the collection was saved. -/
def remove_app (app_id : String) (confirm_in : String) (data : List App) :
    List App × Bool :=
  if data.any (fun a => a.id = app_id) then
    let confirm := get_input confirm_in ""
    if pyLower confirm ≠ "yes" then (data, false)
    else (data.filter (fun a => a.id ≠ app_id), true)
  else
    (data, false)

/-! ### Persistence: the JSON document, `save_apps` and `load_apps` -/

/-- The fragment of JSON the persisted document uses. -/
inductive JValue where
  | str (s : String)
  | arr (elems : List JValue)
  | obj (fields : List (String × JValue))

/-- Serialization of the `urls` dict. -/
def encodeUrls (urls : List (String × String)) : JValue :=
  .obj (urls.map (fun kv => (kv.1, JValue.str kv.2)))

/-- Serialization of one App record: the ten keys, in the order of the dict
literal in `add_app`. -/
def encodeApp (a : App) : JValue :=
  .obj [("id", .str a.id), ("name", .str a.name),
        ("description", .str a.description), ("urls", encodeUrls a.urls),
        ("repository", .str a.repository), ("tech_stack", .str a.tech_stack),
        ("status", .str a.status), ("notes", .str a.notes),
        ("created_at", .str a.created_at), ("updated_at", .str a.updated_at)]

/-- Serialization of the whole document: `{"apps": [...]}`. -/
def encodeDoc (apps : List App) : JValue :=
  .obj [("apps", .arr (apps.map encodeApp))]

/-- Key list of a JSON object. -/
def jKeys : JValue → List String
  | .obj fields => fields.map (fun kv => kv.1)
  | _ => []

/-- Dictionary lookup in a JSON object's field list. -/
def jLookup (fields : List (String × JValue)) (key : String) : Option JValue :=
  (fields.find? (fun kv => kv.1 = key)).map (fun kv => kv.2)

/-- Read a JSON string. -/
def asStr : JValue → Option String
  | .str s => some s
  | _ => none

/-- Read the `urls` object back into the association-list model. -/
def decodeUrlFields : List (String × JValue) → Option (List (String × String))
  | [] => some []
  | (k, v) :: rest =>
    match asStr v, decodeUrlFields rest with
    | some s, some tail => some ((k, s) :: tail)
    | _, _ => none

def decodeUrls : JValue → Option (List (String × String))
  | .obj fields => decodeUrlFields fields
  | _ => none

/-- Read one App record back from its JSON object. -/
def decodeApp (j : JValue) : Option App :=
  match j with
  | .obj fields => do
    let id ← jLookup fields "id" >>= asStr
    let name ← jLookup fields "name" >>= asStr
    let description ← jLookup fields "description" >>= asStr
    let urlsJ ← jLookup fields "urls"
    let urls ← decodeUrls urlsJ
    let repository ← jLookup fields "repository" >>= asStr
    let tech_stack ← jLookup fields "tech_stack" >>= asStr
    let status ← jLookup fields "status" >>= asStr
    let notes ← jLookup fields "notes" >>= asStr
    let created_at ← jLookup fields "created_at" >>= asStr
    let updated_at ← jLookup fields "updated_at" >>= asStr
    pure { id := id, name := name, description := description, urls := urls,
           repository := repository, tech_stack := tech_stack, status := status,
           notes := notes, created_at := created_at, updated_at := updated_at }
  | _ => none

def decodeApps : List JValue → Option (List App)
  | [] => some []
  | j :: rest =>
    match decodeApp j, decodeApps rest with
    | some a, some tail => some (a :: tail)
    | _, _ => none

/-- Read a persisted document back into a collection. -/
def decodeDoc : JValue → Option (List App)
  | .obj fields =>
    match jLookup fields "apps" with
    | some (.arr elems) => decodeApps elems
    | _ => none
  | _ => none

/-- State of the data file as `load_apps` can observe it: absent, present but
not valid JSON (`json.JSONDecodeError`), or present and parsing to a value. -/
inductive FileState where
  | missing
  | corrupt
  | parsed (v : JValue)

/-- `save_apps` overwrites the file with the serialized document; reading the
file back parses to exactly that value. -/
def save_apps (apps : List App) : FileState :=
  .parsed (encodeDoc apps)

/-- `load_apps`: a missing file yields the empty document with no message; a
corrupted file yields the empty document after printing an error message; a
parsable file yields its value.  The `Bool` records whether the corruption
message was printed.  No case raises. -/
def load_apps : FileState → JValue × Bool
  | .missing => (encodeDoc [], false)
  | .corrupt => (encodeDoc [], true)
  | .parsed v => (v, false)

/-! ### Presenter: `view_app` and the Markdown export -/

/-- `view_app` prints details for a found id and a not-found error otherwise;
it always returns normally.  The `Bool` records whether the not-found error
was printed. -/
def view_app (data : List App) (app_id : String) : Bool :=
  (data.find? (fun a => a.id = app_id)).isNone

/-- Python `str.title()` restricted to the single lowercase words it is
applied to here: uppercase the first character, lowercase the rest. -/
def pyTitle (s : String) : String :=
  match s.data with
  | [] => ""
  | c :: rest => ⟨c.toUpper :: rest.map Char.toLower⟩

/-- The `**URLs:**` block of one exported app. -/
def renderUrls (urls : List (String × String)) : String :=
  "**URLs:**\n" ++
    String.join (urls.map (fun kv => "- " ++ pyTitle kv.1 ++ ": " ++ kv.2 ++ "\n")) ++
    "\n"

/-- One app's section of the Markdown export: subsection title, each optional
field only when non-empty, and the horizontal separator at the end. -/
def renderApp (a : App) : String :=
  "### " ++ a.name ++ "\n\n" ++
  (if a.description ≠ "" then a.description ++ "\n\n" else "") ++
  (if a.urls ≠ [] then renderUrls a.urls else "") ++
  (if a.repository ≠ "" then "**Repository:** " ++ a.repository ++ "\n\n" else "") ++
  (if a.tech_stack ≠ "" then "**Tech Stack:** " ++ a.tech_stack ++ "\n\n" else "") ++
  (if a.notes ≠ "" then "**Notes:** " ++ a.notes ++ "\n\n" else "") ++
  "---\n\n"

/-- The fixed grouping order of the export. -/
def statusOrder : List String := ["production", "staging", "development", "archived"]

/-- One status group of the export: heading plus the group's apps in
collection order, or nothing when the group is empty. -/
def renderGroup (apps : List App) (status : String) : String :=
  let status_apps := apps.filter (fun a => a.status = status)
  if status_apps ≠ [] then
    "## " ++ pyTitle status ++ "\n\n" ++ String.join (status_apps.map renderApp)
  else ""

/-- The header `export_markdown` writes before the groups. -/
def mdHeader (now : String) : String :=
  "# My Apps\n\n" ++ "*Generated on " ++ now ++ "*\n\n"

/-- `export_markdown`: `none` (just an informational message, no write) on an
empty collection, otherwise the full contents written to `apps-list.md`. -/
def export_markdown (now : String) (apps : List App) : Option String :=
  if apps = [] then none
  else some (mdHeader now ++ String.join (statusOrder.map (renderGroup apps)))

/-- The effect of `export` on the export file: opened with mode `'w'`, so a
write replaces any previous contents; the empty-collection no-op leaves the
file as it was. -/
def export_write (prev : Option String) (now : String) (apps : List App) : Option String :=
  match export_markdown now apps with
  | none => prev
  | some s => some s

/-! ### CLI dispatcher -/

/-- Outcome of one `main` invocation: the process exit code and whether an
error message was printed. -/
structure CmdResult where
  exitCode : Nat
  errorPrinted : Bool
deriving DecidableEq, Repr

/-- The command names `main` recognizes. -/
def recognizedCommands : List String :=
  ["help", "-h", "--help", "add", "list", "view", "edit", "remove", "export"]

/-- `main`, restricted to argument handling: `argv` starts with the script
name as in `sys.argv`.  Missing required app-id arguments exit with code 1
after an error message; a not-found id inside `view`/`edit`/`remove` prints
an error and falls through to the normal exit (code 0); an unrecognized
command prints an error and exits with code 1. -/
def main_dispatch (argv : List String) (data : List App) : CmdResult :=
  match argv with
  | [] => ⟨0, false⟩
  | [_script] => ⟨0, false⟩
  | _script :: cmd :: rest =>
    let command := pyLower cmd
    if command = "help" ∨ command = "-h" ∨ command = "--help" then ⟨0, false⟩
    else if command = "add" then ⟨0, false⟩
    else if command = "list" then ⟨0, false⟩
    else if command = "view" then
      match rest with
      | [] => ⟨1, true⟩
      | app_id :: _ => ⟨0, view_app data app_id⟩
    else if command = "edit" then
      match rest with
      | [] => ⟨1, true⟩
      | app_id :: _ => ⟨0, !data.any (fun a => a.id = app_id)⟩
    else if command = "remove" then
      match rest with
      | [] => ⟨1, true⟩
      | app_id :: _ => ⟨0, !data.any (fun a => a.id = app_id)⟩
    else if command = "export" then ⟨0, false⟩
    else ⟨1, true⟩

/-- The per-entry invariant of the `urls` dict: only the four recognized
environment slots, never with an empty value. -/
def urlsValid (urls : List (String × String)) : Prop :=
  ∀ kv ∈ urls,
    (kv.1 = "development" ∨ kv.1 = "staging" ∨ kv.1 = "production" ∨ kv.1 = "other") ∧
    kv.2 ≠ ""

instance (urls : List (String × String)) : Decidable (urlsValid urls) := by
  unfold urlsValid
  infer_instance

/-! ### Helper lemmas about prompts, URL dicts, and serialization -/

lemma get_input_blank (entered default : String) (h : pyStrip entered = "") :
    get_input entered default = default := by
  unfold get_input
  by_cases hd : default = ""
  · simp [hd, h]
  · simp [hd, h]

lemma get_input_nonblank (entered default : String) (h : pyStrip entered ≠ "") :
    get_input entered default = pyStrip entered := by
  unfold get_input
  by_cases hd : default = ""
  · simp [hd]
  · simp [hd, h]

lemma urlGet_mkUrls_dev (d s p o : String) :
    urlGet (mkUrls d s p o) "development" = d := by
  unfold mkUrls urlGet
  by_cases hd : d = "" <;> by_cases hs : s = "" <;> by_cases hp : p = "" <;>
    by_cases ho : o = "" <;> simp_all

lemma urlGet_mkUrls_staging (d s p o : String) :
    urlGet (mkUrls d s p o) "staging" = s := by
  unfold mkUrls urlGet
  by_cases hd : d = "" <;> by_cases hs : s = "" <;> by_cases hp : p = "" <;>
    by_cases ho : o = "" <;> simp_all

lemma urlGet_mkUrls_prod (d s p o : String) :
    urlGet (mkUrls d s p o) "production" = p := by
  unfold mkUrls urlGet
  by_cases hd : d = "" <;> by_cases hs : s = "" <;> by_cases hp : p = "" <;>
    by_cases ho : o = "" <;> simp_all

lemma urlGet_mkUrls_other (d s p o : String) :
    urlGet (mkUrls d s p o) "other" = o := by
  unfold mkUrls urlGet
  by_cases hd : d = "" <;> by_cases hs : s = "" <;> by_cases hp : p = "" <;>
    by_cases ho : o = "" <;> simp_all

lemma mkUrls_valid (d s p o : String) : urlsValid (mkUrls d s p o) := by
  intro kv hkv
  unfold mkUrls at hkv
  by_cases hd : d = "" <;> by_cases hs : s = "" <;> by_cases hp : p = "" <;>
    by_cases ho : o = "" <;> simp_all <;> rcases hkv with h | h | h | h <;> simp_all

lemma mkUrls_find_dev (d s p o : String) :
    (mkUrls d s p o).find? (fun kv => kv.1 = "development") =
      if d = "" then none else some ("development", d) := by
  unfold mkUrls
  by_cases hd : d = "" <;> by_cases hs : s = "" <;> by_cases hp : p = "" <;>
    by_cases ho : o = "" <;> simp_all

lemma mkUrls_find_staging (d s p o : String) :
    (mkUrls d s p o).find? (fun kv => kv.1 = "staging") =
      if s = "" then none else some ("staging", s) := by
  unfold mkUrls
  by_cases hd : d = "" <;> by_cases hs : s = "" <;> by_cases hp : p = "" <;>
    by_cases ho : o = "" <;> simp_all

lemma mkUrls_find_prod (d s p o : String) :
    (mkUrls d s p o).find? (fun kv => kv.1 = "production") =
      if p = "" then none else some ("production", p) := by
  unfold mkUrls
  by_cases hd : d = "" <;> by_cases hs : s = "" <;> by_cases hp : p = "" <;>
    by_cases ho : o = "" <;> simp_all

lemma mkUrls_find_other (d s p o : String) :
    (mkUrls d s p o).find? (fun kv => kv.1 = "other") =
      if o = "" then none else some ("other", o) := by
  unfold mkUrls
  by_cases hd : d = "" <;> by_cases hs : s = "" <;> by_cases hp : p = "" <;>
    by_cases ho : o = "" <;> simp_all

lemma replaceFirst_mem (data : List App) (app_id : String) (f : App → App) :
    ∀ a ∈ replaceFirst data app_id f, a ∈ data ∨ ∃ b ∈ data, a = f b := by
  induction data with
  | nil => intro a ha; simp [replaceFirst] at ha
  | cons x rest ih =>
    intro a ha
    unfold replaceFirst at ha
    by_cases hx : x.id = app_id
    · rw [if_pos hx] at ha
      rcases List.mem_cons.mp ha with rfl | ha'
      · exact Or.inr ⟨x, List.mem_cons_self x rest, rfl⟩
      · exact Or.inl (List.mem_cons_of_mem x ha')
    · rw [if_neg hx] at ha
      rcases List.mem_cons.mp ha with rfl | ha'
      · exact Or.inl (List.mem_cons_self a rest)
      · rcases ih a ha' with h | ⟨b, hb, rfl⟩
        · exact Or.inl (List.mem_cons_of_mem x h)
        · exact Or.inr ⟨b, List.mem_cons_of_mem x hb, rfl⟩

lemma replaceFirst_length (data : List App) (app_id : String) (f : App → App) :
    (replaceFirst data app_id f).length = data.length := by
  induction data with
  | nil => rfl
  | cons x rest ih =>
    unfold replaceFirst
    by_cases hx : x.id = app_id <;> simp [hx, ih]

lemma decodeUrlFields_encode (urls : List (String × String)) :
    decodeUrlFields (urls.map (fun kv => (kv.1, JValue.str kv.2))) = some urls := by
  induction urls with
  | nil => rfl
  | cons kv rest ih => simp [decodeUrlFields, asStr, ih]

lemma decodeApp_encode (a : App) : decodeApp (encodeApp a) = some a := by
  simp [decodeApp, encodeApp, jLookup, asStr, List.find?, encodeUrls, decodeUrls,
    decodeUrlFields_encode, Option.bind]

lemma decodeApps_encode (apps : List App) :
    decodeApps (apps.map encodeApp) = some apps := by
  induction apps with
  | nil => rfl
  | cons a rest ih => simp [decodeApps, decodeApp_encode, ih]

lemma decodeDoc_encode (apps : List App) : decodeDoc (encodeDoc apps) = some apps := by
  simp [decodeDoc, encodeDoc, jLookup, List.find?, decodeApps_encode]

/-! ### Claim theorems -/

/-- C1: `generate_id` always returns an identifier outside `existing_ids`;
the normalized base is returned directly when unused, otherwise the base with
the smallest unused positive suffix `-k`; consequently `add` preserves
pairwise-distinct ids, and adding `"My App"` twice yields `my-app` then
`my-app-1`. -/
theorem generate_id_unique (name : String) (existing : List String)
    (inp : AddInputs) (now : String) (data : List App)
    (hnodup : (data.map (fun a => a.id)).Nodup) :
    generate_id name existing ∉ existing ∧
    (generate_base name ∉ existing → generate_id name existing = generate_base name) ∧
    (generate_base name ∈ existing →
      ∃ k, 1 ≤ k ∧ generate_id name existing = genCandidate (generate_base name) k ∧
        genCandidate (generate_base name) k ∉ existing ∧
        ∀ j, 1 ≤ j → j < k → genCandidate (generate_base name) j ∈ existing) ∧
    ((add_app inp now data).1.map (fun a => a.id)).Nodup ∧
    generate_id "My App" [] = "my-app" ∧
    generate_id "My App" ["my-app"] = "my-app-1" := by
  refine ⟨generate_id_fresh name existing, ?_, ?_, ?_, by decide, by decide⟩
  · intro h
    unfold generate_id
    rw [if_neg h]
  · intro h
    refine ⟨findSuffix (generate_base name) existing (existing.length + 1) 1,
      findSuffix_ge _ _ _ 1, ?_, ?_, ?_⟩
    · unfold generate_id
      rw [if_pos h]
    · apply findSuffix_free
      obtain ⟨j, h1, h2, h3⟩ := exists_unused (generate_base name) existing
      exact ⟨j, h1, by omega, h3⟩
    · intro j h1 h2
      exact findSuffix_min (generate_base name) existing _ 1 j h1 h2
  · have hfresh := generate_id_fresh inp.name_in (data.map (fun a => a.id))
    simp only [add_app, List.map_append, List.map_cons, List.map_nil]
    rw [List.nodup_append]
    refine ⟨hnodup, List.nodup_singleton _, ?_⟩
    intro x hx hx'
    simp only [List.mem_singleton] at hx'
    subst hx'
    exact hfresh hx

/-- Witness for C1 at `name = "My App"`, `existing = ["my-app"]`, an empty
collection and blank optional prompts. -/
theorem generate_id_unique_witness :
    generate_id "My App" ["my-app"] ∉ ["my-app"] ∧
    (generate_base "My App" ∉ ["my-app"] →
      generate_id "My App" ["my-app"] = generate_base "My App") ∧
    (generate_base "My App" ∈ ["my-app"] →
      ∃ k, 1 ≤ k ∧
        generate_id "My App" ["my-app"] = genCandidate (generate_base "My App") k ∧
        genCandidate (generate_base "My App") k ∉ ["my-app"] ∧
        ∀ j, 1 ≤ j → j < k → genCandidate (generate_base "My App") j ∈ ["my-app"]) ∧
    ((add_app ⟨"My App", "", "", "", "", "", "", "", "", ""⟩ "2024-01-01T00:00:00" []).1.map
      (fun a => a.id)).Nodup ∧
    generate_id "My App" [] = "my-app" ∧
    generate_id "My App" ["my-app"] = "my-app-1" :=
  generate_id_unique "My App" ["my-app"] ⟨"My App", "", "", "", "", "", "", "", "", ""⟩
    "2024-01-01T00:00:00" [] (by decide)

/-- C2 counterexample: a name of stripped-out characters normalizes to the
empty base, and with no existing ids `generate_id` returns the empty string,
not a non-empty identifier. -/
theorem generate_id_empty_counterexample :
    generate_base "!!!" = "" ∧ generate_id "!!!" [] = "" := by
  constructor <;> decide

/-- C2 amended: when the name normalizes to an empty base, `generate_id`
returns the empty identifier exactly when `""` is itself unused; only when
`""` is already taken does the suffix loop produce a non-empty `-k`. -/
theorem generate_id_empty_base (name : String) (existing : List String)
    (h : generate_base name = "") :
    (generate_id name existing = "" ↔ "" ∉ existing) := by
  unfold generate_id
  rw [h]
  by_cases he : ("" : String) ∈ existing
  · rw [if_pos he]
    simp only [he, not_true, iff_false]
    intro hcand
    have := congrArg String.data hcand
    simp only [genCandidate, str_append_data] at this
    exact List.cons_ne_nil _ _ this
  · rw [if_neg he]
    simp [he]

/-- Witness for C2's amended statement at `name = "!!!"`. -/
theorem generate_id_empty_base_witness :
    generate_id "!!!" [] = "" ↔ "" ∉ ([] : List String) :=
  generate_id_empty_base "!!!" [] (by decide)

/-- C3 counterexample: the confirmation check lowercases the input, so the
input `"YES"`, which differs from the exact token `"yes"`, still deletes the
record and persists — the collection is not left unchanged. -/
theorem remove_confirm_counterexample :
    ("YES" : String) ≠ "yes" ∧
    remove_app "my-app" "YES"
        [⟨"my-app", "My App", "", [], "", "", "development", "", "t0", "t0"⟩] =
      ([], true) := by
  constructor <;> decide

/-- C3 amended: `remove_app` leaves the collection unchanged and persists
nothing whenever the stripped, lowercased confirmation input differs from
`"yes"`; deletion (a save) happens only when the stripped input lowercases to
`"yes"`.  The token check is case-insensitive, not exact. -/
theorem remove_requires_confirmation (app_id confirm_in : String) (data : List App)
    (h : pyLower (pyStrip confirm_in) ≠ "yes") :
    remove_app app_id confirm_in data = (data, false) ∧
    (∀ c, (remove_app app_id c data).2 = true → pyLower (pyStrip c) = "yes") := by
  have hget : ∀ c : String, get_input c "" = pyStrip c := fun c => rfl
  constructor
  · unfold remove_app
    by_cases hfound : data.any (fun a => a.id = app_id)
    · rw [if_pos hfound]
      simp only [hget]
      rw [if_pos h]
    · rw [if_neg hfound]
  · intro c hc
    by_cases hyes : pyLower (pyStrip c) = "yes"
    · exact hyes
    · exfalso
      unfold remove_app at hc
      by_cases hfound : data.any (fun a => a.id = app_id)
      · rw [if_pos hfound] at hc
        simp only [hget] at hc
        rw [if_pos hyes] at hc
        simp at hc
      · rw [if_neg hfound] at hc
        simp at hc

/-- Witness for C3's amended statement: entering `"no"` leaves the
one-element collection untouched. -/
theorem remove_requires_confirmation_witness :
    remove_app "my-app" "no"
        [⟨"my-app", "My App", "", [], "", "", "development", "", "t0", "t0"⟩] =
      ([⟨"my-app", "My App", "", [], "", "", "development", "", "t0", "t0"⟩], false) ∧
    (∀ c, (remove_app "my-app" c
        [⟨"my-app", "My App", "", [], "", "", "development", "", "t0", "t0"⟩]).2 = true →
      pyLower (pyStrip c) = "yes") :=
  remove_requires_confirmation "my-app" "no"
    [⟨"my-app", "My App", "", [], "", "", "development", "", "t0", "t0"⟩] (by decide)

/-- C4: `load_apps` yields the empty document without any message when the
file is missing, yields the empty document after printing the corruption
message when the file cannot be parsed, and in both cases the result decodes
to the empty collection; being a total function, it raises nothing. -/
theorem load_missing_or_corrupt :
    load_apps .missing = (encodeDoc [], false) ∧
    load_apps .corrupt = (encodeDoc [], true) ∧
    decodeDoc (encodeDoc []) = some [] :=
  ⟨rfl, rfl, decodeDoc_encode []⟩

/-- C5: `save_apps` followed by `load_apps` reproduces the collection exactly:
the loaded document is the serialized one, no warning is printed, and
decoding it restores every record — all ten fields and the collection
order — for any collection, empty `urls` and empty `notes` included. -/
theorem save_load_roundtrip (apps : List App) :
    load_apps (save_apps apps) = (encodeDoc apps, false) ∧
    decodeDoc (load_apps (save_apps apps)).1 = some apps :=
  ⟨rfl, decodeDoc_encode apps⟩

/-- C6: `edit_app` is a partial/merge update.  On an app whose `urls` dict
has the shape the program itself builds, every field whose prompt is left
blank keeps its prior value (so editing only `notes` leaves `name`, `urls`
and `status` unchanged), a non-blank entry replaces the field with the
stripped entry, `updated_at` is set to the edit time, and `id` and
`created_at` are never modified. -/
theorem edit_partial_update (inp : EditInputs) (now : String) (a : App)
    (d s p o : String) (hurls : a.urls = mkUrls d s p o) :
    (edit_app_one inp now a).id = a.id ∧
    (edit_app_one inp now a).created_at = a.created_at ∧
    (edit_app_one inp now a).updated_at = now ∧
    (pyStrip inp.name_in = "" → (edit_app_one inp now a).name = a.name) ∧
    (pyStrip inp.description_in = "" →
      (edit_app_one inp now a).description = a.description) ∧
    (pyStrip inp.repo_in = "" → (edit_app_one inp now a).repository = a.repository) ∧
    (pyStrip inp.tech_in = "" → (edit_app_one inp now a).tech_stack = a.tech_stack) ∧
    (pyStrip inp.notes_in = "" → (edit_app_one inp now a).notes = a.notes) ∧
    (pyStrip inp.status_choice_in = "" → (edit_app_one inp now a).status = a.status) ∧
    (pyStrip inp.url_dev_in = "" → pyStrip inp.url_staging_in = "" →
      pyStrip inp.url_prod_in = "" → pyStrip inp.url_other_in = "" →
      (edit_app_one inp now a).urls = a.urls) ∧
    (pyStrip inp.name_in ≠ "" → (edit_app_one inp now a).name = pyStrip inp.name_in) := by
  refine ⟨rfl, rfl, rfl, ?_, ?_, ?_, ?_, ?_, ?_, ?_, ?_⟩
  · intro h
    simp only [edit_app_one]
    exact get_input_blank _ _ h
  · intro h
    simp only [edit_app_one]
    exact get_input_blank _ _ h
  · intro h
    simp only [edit_app_one]
    exact get_input_blank _ _ h
  · intro h
    simp only [edit_app_one]
    exact get_input_blank _ _ h
  · intro h
    simp only [edit_app_one]
    exact get_input_blank _ _ h
  · intro h
    simp only [edit_app_one]
    have hch : get_input inp.status_choice_in "" = "" := by
      rw [get_input_blank _ _ h]
    rw [hch]
    simp
  · intro h1 h2 h3 h4
    simp only [edit_app_one]
    rw [get_input_blank _ _ h1, get_input_blank _ _ h2, get_input_blank _ _ h3,
      get_input_blank _ _ h4, hurls, urlGet_mkUrls_dev, urlGet_mkUrls_staging,
      urlGet_mkUrls_prod, urlGet_mkUrls_other]
  · intro h
    simp only [edit_app_one]
    exact get_input_nonblank _ _ h

/-- Witness for C6: an edit that only supplies new notes leaves every other
field of a concrete app unchanged. -/
theorem edit_partial_update_witness :
    (edit_app_one ⟨"", "", "", "", "", "", "", "", "", "new notes"⟩ "t1"
        ⟨"my-app", "My App", "desc", mkUrls "http://dev" "" "" "", "repo", "Python",
          "development", "old", "t0", "t0"⟩).id = "my-app" ∧
    (edit_app_one ⟨"", "", "", "", "", "", "", "", "", "new notes"⟩ "t1"
        ⟨"my-app", "My App", "desc", mkUrls "http://dev" "" "" "", "repo", "Python",
          "development", "old", "t0", "t0"⟩).created_at = "t0" ∧
    (edit_app_one ⟨"", "", "", "", "", "", "", "", "", "new notes"⟩ "t1"
        ⟨"my-app", "My App", "desc", mkUrls "http://dev" "" "" "", "repo", "Python",
          "development", "old", "t0", "t0"⟩).updated_at = "t1" ∧
    (edit_app_one ⟨"", "", "", "", "", "", "", "", "", "new notes"⟩ "t1"
        ⟨"my-app", "My App", "desc", mkUrls "http://dev" "" "" "", "repo", "Python",
          "development", "old", "t0", "t0"⟩).name = "My App" ∧
    (edit_app_one ⟨"", "", "", "", "", "", "", "", "", "new notes"⟩ "t1"
        ⟨"my-app", "My App", "desc", mkUrls "http://dev" "" "" "", "repo", "Python",
          "development", "old", "t0", "t0"⟩).status = "development" ∧
    (edit_app_one ⟨"", "", "", "", "", "", "", "", "", "new notes"⟩ "t1"
        ⟨"my-app", "My App", "desc", mkUrls "http://dev" "" "" "", "repo", "Python",
          "development", "old", "t0", "t0"⟩).urls = mkUrls "http://dev" "" "" "" ∧
    (edit_app_one ⟨"", "", "", "", "", "", "", "", "", "new notes"⟩ "t1"
        ⟨"my-app", "My App", "desc", mkUrls "http://dev" "" "" "", "repo", "Python",
          "development", "old", "t0", "t0"⟩).notes = "new notes" := by
  have h := edit_partial_update ⟨"", "", "", "", "", "", "", "", "", "new notes"⟩ "t1"
    ⟨"my-app", "My App", "desc", mkUrls "http://dev" "" "" "", "repo", "Python",
      "development", "old", "t0", "t0"⟩ "http://dev" "" "" "" rfl
  refine ⟨h.1, h.2.1, h.2.2.1, h.2.2.2.1 (by decide), h.2.2.2.2.2.2.2.2.1 (by decide),
    h.2.2.2.2.2.2.2.2.2.1 (by decide) (by decide) (by decide) (by decide), by decide⟩

/-- C7: `view`, `edit` and `remove` invoked without their app-id argument
print an error and exit with code 1; invoked with an id absent from the data
they print a not-found error and the process finishes normally with exit
code 0; an unrecognized command prints an error and exits with code 1. -/
theorem cli_dispatch_spec (script : String) (data : List App) :
    main_dispatch [script, "view"] data = ⟨1, true⟩ ∧
    main_dispatch [script, "edit"] data = ⟨1, true⟩ ∧
    main_dispatch [script, "remove"] data = ⟨1, true⟩ ∧
    (∀ app_id rest, (∀ a ∈ data, a.id ≠ app_id) →
      main_dispatch (script :: "view" :: app_id :: rest) data = ⟨0, true⟩ ∧
      main_dispatch (script :: "edit" :: app_id :: rest) data = ⟨0, true⟩ ∧
      main_dispatch (script :: "remove" :: app_id :: rest) data = ⟨0, true⟩) ∧
    (∀ cmd rest, pyLower cmd ∉ recognizedCommands →
      main_dispatch (script :: cmd :: rest) data = ⟨1, true⟩) := by
  refine ⟨rfl, rfl, rfl, ?_, ?_⟩
  · intro app_id rest habsent
    have hfind : data.find? (fun a => a.id = app_id) = none := by
      rw [List.find?_eq_none]
      intro a ha
      simp only [decide_eq_true_eq]
      exact habsent a ha
    have hany : data.any (fun a => a.id = app_id) = false := by
      rw [List.any_eq_false]
      intro a ha
      simp only [decide_eq_true_eq]
      exact habsent a ha
    refine ⟨?_, ?_, ?_⟩
    · show (⟨0, view_app data app_id⟩ : CmdResult) = ⟨0, true⟩
      unfold view_app
      rw [hfind]
      rfl
    · show (⟨0, !data.any (fun a => a.id = app_id)⟩ : CmdResult) = ⟨0, true⟩
      rw [hany]
      rfl
    · show (⟨0, !data.any (fun a => a.id = app_id)⟩ : CmdResult) = ⟨0, true⟩
      rw [hany]
      rfl
  · intro cmd rest hcmd
    simp only [recognizedCommands, List.mem_cons, List.not_mem_nil, or_false,
      not_or] at hcmd
    obtain ⟨h1, h2, h3, h4, h5, h6, h7, h8, h9⟩ := hcmd
    simp only [main_dispatch, h1, h2, h3, h4, h5, h6, h7, h8, h9, or_self,
      if_false, or_false, false_or]

/-- Witness for C7 on a one-app collection: missing id exits 1, unknown id
reports and exits 0, unknown command exits 1. -/
theorem cli_dispatch_spec_witness :
    main_dispatch ["app-tracker.py", "view"]
        [⟨"my-app", "My App", "", [], "", "", "development", "", "t0", "t0"⟩] = ⟨1, true⟩ ∧
    (main_dispatch ["app-tracker.py", "view", "nope"]
        [⟨"my-app", "My App", "", [], "", "", "development", "", "t0", "t0"⟩] = ⟨0, true⟩ ∧
      main_dispatch ["app-tracker.py", "edit", "nope"]
        [⟨"my-app", "My App", "", [], "", "", "development", "", "t0", "t0"⟩] = ⟨0, true⟩ ∧
      main_dispatch ["app-tracker.py", "remove", "nope"]
        [⟨"my-app", "My App", "", [], "", "", "development", "", "t0", "t0"⟩] = ⟨0, true⟩) ∧
    main_dispatch ["app-tracker.py", "frobnicate"]
        [⟨"my-app", "My App", "", [], "", "", "development", "", "t0", "t0"⟩] = ⟨1, true⟩ :=
  ⟨(cli_dispatch_spec "app-tracker.py"
      [⟨"my-app", "My App", "", [], "", "", "development", "", "t0", "t0"⟩]).1,
   (cli_dispatch_spec "app-tracker.py"
      [⟨"my-app", "My App", "", [], "", "", "development", "", "t0", "t0"⟩]).2.2.2.1
      "nope" [] (by decide),
   (cli_dispatch_spec "app-tracker.py"
      [⟨"my-app", "My App", "", [], "", "", "development", "", "t0", "t0"⟩]).2.2.2.2
      "frobnicate" [] (by decide)⟩

/-! ### Export lemmas -/

lemma infix_append_left {α : Type} {ys l : List α} (xs : List α) (h : l <:+: ys) :
    l <:+: xs ++ ys := by
  obtain ⟨s, t, hst⟩ := h
  exact ⟨xs ++ s, t, by rw [← hst]; simp⟩

lemma infix_append_right {α : Type} {xs l : List α} (ys : List α) (h : l <:+: xs) :
    l <:+: xs ++ ys := by
  obtain ⟨s, t, hst⟩ := h
  exact ⟨s, t ++ ys, by rw [← hst]; simp⟩

lemma renderApp_data (a : App) :
    (renderApp a).data =
      ("### " ++ a.name ++ "\n\n").data ++
      ((if a.description ≠ "" then a.description ++ "\n\n" else "").data ++
      ((if a.urls ≠ [] then renderUrls a.urls else "").data ++
      ((if a.repository ≠ "" then "**Repository:** " ++ a.repository ++ "\n\n" else "").data ++
      ((if a.tech_stack ≠ "" then "**Tech Stack:** " ++ a.tech_stack ++ "\n\n" else "").data ++
      ((if a.notes ≠ "" then "**Notes:** " ++ a.notes ++ "\n\n" else "").data ++
      ("---\n\n").data))))) := by
  simp only [renderApp, str_append_data, List.append_assoc]

lemma suffix_append_left {α : Type} {ys l : List α} (xs : List α) (h : l <:+ ys) :
    l <:+ xs ++ ys := by
  obtain ⟨s, hs⟩ := h
  exact ⟨xs ++ s, by rw [← hs]; simp⟩

/-- C8: the Markdown export groups apps under status headings in the fixed
order production, staging, development, archived, keeping insertion order
inside each group (the output depends only on the four per-status sublists,
so it ignores insertion order across groups); each optional field appears
only when non-empty; every app section ends with a horizontal separator; a
write replaces the previous file contents; an empty collection is a no-op
with only an informational message. -/
theorem export_markdown_spec (now : String) (apps apps2 : List App)
    (prev : Option String) (hne : apps ≠ []) (hne2 : apps2 ≠ [])
    (hsame : ∀ st ∈ statusOrder,
      apps.filter (fun a => a.status = st) = apps2.filter (fun a => a.status = st)) :
    export_markdown now [] = none ∧
    export_write prev now [] = prev ∧
    export_write prev now apps = export_markdown now apps ∧
    export_markdown now apps = some (mdHeader now ++
      String.join [renderGroup apps "production", renderGroup apps "staging",
        renderGroup apps "development", renderGroup apps "archived"]) ∧
    export_markdown now apps = export_markdown now apps2 ∧
    (∀ a : App, "---\n\n".data <:+ (renderApp a).data) ∧
    (∀ a : App, a.description ≠ "" → a.description.data <:+: (renderApp a).data) ∧
    (∀ a : App, a.urls ≠ [] → "**URLs:**".data <:+: (renderApp a).data) ∧
    (∀ a : App, a.repository ≠ "" → a.repository.data <:+: (renderApp a).data) ∧
    (∀ a : App, a.tech_stack ≠ "" → a.tech_stack.data <:+: (renderApp a).data) ∧
    (∀ a : App, a.notes ≠ "" → a.notes.data <:+: (renderApp a).data) ∧
    (∀ a : App, a.description = "" → a.urls = [] → a.repository = "" →
      a.tech_stack = "" → a.notes = "" →
      renderApp a = "### " ++ a.name ++ "\n\n" ++ "---\n\n") := by
  refine ⟨rfl, rfl, ?_, ?_, ?_, ?_, ?_, ?_, ?_, ?_, ?_, ?_⟩
  · unfold export_write export_markdown
    rw [if_neg hne]
  · unfold export_markdown
    rw [if_neg hne]
    rfl
  · have e1 := hsame "production" (by simp [statusOrder])
    have e2 := hsame "staging" (by simp [statusOrder])
    have e3 := hsame "development" (by simp [statusOrder])
    have e4 := hsame "archived" (by simp [statusOrder])
    unfold export_markdown
    rw [if_neg hne, if_neg hne2]
    simp only [statusOrder, List.map_cons, List.map_nil]
    unfold renderGroup
    rw [e1, e2, e3, e4]
  · intro a
    rw [renderApp_data]
    apply suffix_append_left
    apply suffix_append_left
    apply suffix_append_left
    apply suffix_append_left
    apply suffix_append_left
    apply suffix_append_left
    exact List.suffix_rfl
  · intro a h
    rw [renderApp_data]
    apply infix_append_left
    apply infix_append_right
    rw [if_pos h, str_append_data]
    exact infix_append_right _ List.infix_rfl
  · intro a h
    rw [renderApp_data]
    apply infix_append_left
    apply infix_append_left
    apply infix_append_right
    rw [if_pos h]
    unfold renderUrls
    rw [str_append_data, str_append_data]
    apply infix_append_right
    apply infix_append_right
    have : ("**URLs:**").data <+: ("**URLs:**\n").data := by decide
    exact this.isInfix
  · intro a h
    rw [renderApp_data]
    apply infix_append_left
    apply infix_append_left
    apply infix_append_left
    apply infix_append_right
    rw [if_pos h, str_append_data, str_append_data]
    apply infix_append_right
    exact infix_append_left _ List.infix_rfl
  · intro a h
    rw [renderApp_data]
    apply infix_append_left
    apply infix_append_left
    apply infix_append_left
    apply infix_append_left
    apply infix_append_right
    rw [if_pos h, str_append_data, str_append_data]
    apply infix_append_right
    exact infix_append_left _ List.infix_rfl
  · intro a h
    rw [renderApp_data]
    apply infix_append_left
    apply infix_append_left
    apply infix_append_left
    apply infix_append_left
    apply infix_append_left
    apply infix_append_right
    rw [if_pos h, str_append_data, str_append_data]
    apply infix_append_right
    exact infix_append_left _ List.infix_rfl
  · intro a h1 h2 h3 h4 h5
    unfold renderApp
    rw [h1, h2, h3, h4, h5]
    simp

/-- Witness for C8: with one production app and one archived app, the export
is insensitive to insertion order and produces the production group first. -/
theorem export_markdown_spec_witness :
    export_markdown "t" ([] : List App) = none ∧
    export_markdown "t"
        [⟨"p-app", "P", "", [], "", "", "production", "", "t0", "t0"⟩,
         ⟨"a-app", "A", "", [], "", "", "archived", "", "t0", "t0"⟩] =
      export_markdown "t"
        [⟨"a-app", "A", "", [], "", "", "archived", "", "t0", "t0"⟩,
         ⟨"p-app", "P", "", [], "", "", "production", "", "t0", "t0"⟩] ∧
    export_markdown "t"
        [⟨"p-app", "P", "", [], "", "", "production", "", "t0", "t0"⟩,
         ⟨"a-app", "A", "", [], "", "", "archived", "", "t0", "t0"⟩] =
      some (mdHeader "t" ++
        String.join
          [renderGroup
              [⟨"p-app", "P", "", [], "", "", "production", "", "t0", "t0"⟩,
               ⟨"a-app", "A", "", [], "", "", "archived", "", "t0", "t0"⟩] "production",
            renderGroup
              [⟨"p-app", "P", "", [], "", "", "production", "", "t0", "t0"⟩,
               ⟨"a-app", "A", "", [], "", "", "archived", "", "t0", "t0"⟩] "staging",
            renderGroup
              [⟨"p-app", "P", "", [], "", "", "production", "", "t0", "t0"⟩,
               ⟨"a-app", "A", "", [], "", "", "archived", "", "t0", "t0"⟩] "development",
            renderGroup
              [⟨"p-app", "P", "", [], "", "", "production", "", "t0", "t0"⟩,
               ⟨"a-app", "A", "", [], "", "", "archived", "", "t0", "t0"⟩] "archived"]) :=
  ⟨(export_markdown_spec "t"
      [⟨"p-app", "P", "", [], "", "", "production", "", "t0", "t0"⟩,
       ⟨"a-app", "A", "", [], "", "", "archived", "", "t0", "t0"⟩]
      [⟨"a-app", "A", "", [], "", "", "archived", "", "t0", "t0"⟩,
       ⟨"p-app", "P", "", [], "", "", "production", "", "t0", "t0"⟩]
      none (by decide) (by decide) (by decide)).1,
   (export_markdown_spec "t"
      [⟨"p-app", "P", "", [], "", "", "production", "", "t0", "t0"⟩,
       ⟨"a-app", "A", "", [], "", "", "archived", "", "t0", "t0"⟩]
      [⟨"a-app", "A", "", [], "", "", "archived", "", "t0", "t0"⟩,
       ⟨"p-app", "P", "", [], "", "", "production", "", "t0", "t0"⟩]
      none (by decide) (by decide) (by decide)).2.2.2.2.1,
   (export_markdown_spec "t"
      [⟨"p-app", "P", "", [], "", "", "production", "", "t0", "t0"⟩,
       ⟨"a-app", "A", "", [], "", "", "archived", "", "t0", "t0"⟩]
      [⟨"a-app", "A", "", [], "", "", "archived", "", "t0", "t0"⟩,
       ⟨"p-app", "P", "", [], "", "", "production", "", "t0", "t0"⟩]
      none (by decide) (by decide) (by decide)).2.2.2.1⟩

/-- C9: after `add` or `edit`, every app's `urls` dict holds only the four
recognized environment slots and only non-empty values (assuming the input
collection already satisfied the invariant); a slot whose value is empty is
absent from the dict rather than stored as an empty string. -/
theorem urls_only_nonempty_slots (ainp : AddInputs) (einp : EditInputs)
    (now app_id : String) (data : List App)
    (hdata : ∀ b ∈ data, urlsValid b.urls) :
    (∀ a ∈ (add_app ainp now data).1, urlsValid a.urls) ∧
    (∀ a ∈ (edit_app einp now app_id data).1, urlsValid a.urls) ∧
    (∀ d s p o, (mkUrls d s p o).find? (fun kv => kv.1 = "development") =
        if d = "" then none else some ("development", d)) ∧
    (∀ d s p o, (mkUrls d s p o).find? (fun kv => kv.1 = "staging") =
        if s = "" then none else some ("staging", s)) ∧
    (∀ d s p o, (mkUrls d s p o).find? (fun kv => kv.1 = "production") =
        if p = "" then none else some ("production", p)) ∧
    (∀ d s p o, (mkUrls d s p o).find? (fun kv => kv.1 = "other") =
        if o = "" then none else some ("other", o)) := by
  refine ⟨?_, ?_, mkUrls_find_dev, mkUrls_find_staging, mkUrls_find_prod, mkUrls_find_other⟩
  · intro a ha
    simp only [add_app] at ha
    rcases List.mem_append.mp ha with h | h
    · exact hdata a h
    · simp only [List.mem_singleton] at h
      subst h
      exact mkUrls_valid _ _ _ _
  · intro a ha
    unfold edit_app at ha
    by_cases hfound : data.any (fun b => b.id = app_id)
    · rw [if_pos hfound] at ha
      simp only at ha
      rcases replaceFirst_mem data app_id (edit_app_one einp now) a ha with h | ⟨b, hb, rfl⟩
      · exact hdata a h
      · exact mkUrls_valid _ _ _ _
    · rw [if_neg hfound] at ha
      exact hdata a ha

/-- Witness for C9 on a one-app collection with a valid `urls` dict. -/
theorem urls_only_nonempty_slots_witness :
    (∀ a ∈ (add_app ⟨"New App", "", "http://d", "", "", "", "", "", "", ""⟩ "t1"
        [⟨"my-app", "My App", "", mkUrls "http://dev" "" "" "", "", "",
          "development", "", "t0", "t0"⟩]).1, urlsValid a.urls) ∧
    (∀ a ∈ (edit_app ⟨"", "", "", "http://s", "", "", "", "", "", ""⟩ "t1" "my-app"
        [⟨"my-app", "My App", "", mkUrls "http://dev" "" "" "", "", "",
          "development", "", "t0", "t0"⟩]).1, urlsValid a.urls) :=
  ⟨(urls_only_nonempty_slots ⟨"New App", "", "http://d", "", "", "", "", "", "", ""⟩
      ⟨"", "", "", "http://s", "", "", "", "", "", ""⟩ "t1" "my-app"
      [⟨"my-app", "My App", "", mkUrls "http://dev" "" "" "", "", "",
        "development", "", "t0", "t0"⟩] (by decide)).1,
   (urls_only_nonempty_slots ⟨"New App", "", "http://d", "", "", "", "", "", "", ""⟩
      ⟨"", "", "", "http://s", "", "", "", "", "", ""⟩ "t1" "my-app"
      [⟨"my-app", "My App", "", mkUrls "http://dev" "" "" "", "", "",
        "development", "", "t0", "t0"⟩] (by decide)).2.1⟩

/-- C10: the record built by `add` has exactly the ten fields of the schema
in the order of the script's dict literal, `created_at` equals `updated_at`
at creation, and skipped optional prompts are stored as empty strings under
their (present) keys; the record is appended to the collection. -/
theorem add_record_fields (inp : AddInputs) (now : String) (data : List App)
    (hdesc : pyStrip inp.description_in = "")
    (hrepo : pyStrip inp.repo_in = "")
    (htech : pyStrip inp.tech_in = "")
    (hnotes : pyStrip inp.notes_in = "") :
    jKeys (encodeApp (add_app inp now data).2) =
      ["id", "name", "description", "urls", "repository", "tech_stack",
       "status", "notes", "created_at", "updated_at"] ∧
    (add_app inp now data).2.created_at = now ∧
    (add_app inp now data).2.updated_at = now ∧
    (add_app inp now data).2.created_at = (add_app inp now data).2.updated_at ∧
    (add_app inp now data).2.description = "" ∧
    (add_app inp now data).2.repository = "" ∧
    (add_app inp now data).2.tech_stack = "" ∧
    (add_app inp now data).2.notes = "" ∧
    (add_app inp now data).1 = data ++ [(add_app inp now data).2] := by
  have hget : ∀ c : String, get_input c "" = pyStrip c := fun c => rfl
  refine ⟨rfl, rfl, rfl, rfl, ?_, ?_, ?_, ?_, rfl⟩
  · show get_input inp.description_in "" = ""
    rw [hget, hdesc]
  · show get_input inp.repo_in "" = ""
    rw [hget, hrepo]
  · show get_input inp.tech_in "" = ""
    rw [hget, htech]
  · show get_input inp.notes_in "" = ""
    rw [hget, hnotes]

/-- Witness for C10: adding `"My App"` with every optional prompt skipped. -/
theorem add_record_fields_witness :
    jKeys (encodeApp (add_app ⟨"My App", "", "", "", "", "", "", "", "", ""⟩ "t1" []).2) =
      ["id", "name", "description", "urls", "repository", "tech_stack",
       "status", "notes", "created_at", "updated_at"] ∧
    (add_app ⟨"My App", "", "", "", "", "", "", "", "", ""⟩ "t1" []).2.created_at = "t1" ∧
    (add_app ⟨"My App", "", "", "", "", "", "", "", "", ""⟩ "t1" []).2.updated_at = "t1" ∧
    (add_app ⟨"My App", "", "", "", "", "", "", "", "", ""⟩ "t1" []).2.created_at =
      (add_app ⟨"My App", "", "", "", "", "", "", "", "", ""⟩ "t1" []).2.updated_at ∧
    (add_app ⟨"My App", "", "", "", "", "", "", "", "", ""⟩ "t1" []).2.description = "" ∧
    (add_app ⟨"My App", "", "", "", "", "", "", "", "", ""⟩ "t1" []).2.repository = "" ∧
    (add_app ⟨"My App", "", "", "", "", "", "", "", "", ""⟩ "t1" []).2.tech_stack = "" ∧
    (add_app ⟨"My App", "", "", "", "", "", "", "", "", ""⟩ "t1" []).2.notes = "" ∧
    (add_app ⟨"My App", "", "", "", "", "", "", "", "", ""⟩ "t1" []).1 =
      [] ++ [(add_app ⟨"My App", "", "", "", "", "", "", "", "", ""⟩ "t1" []).2] :=
  add_record_fields ⟨"My App", "", "", "", "", "", "", "", "", ""⟩ "t1" []
    (by decide) (by decide) (by decide) (by decide)
